import Mathlib

/-!
Verification of the action-resolution and step-sequencing engine of
`agenthub/micro/agent.py`: the Response Extractor (`parse_response`) and the
Workflow Driver (`MicroAgent.step_workflow` with its helpers
`update_previous_workflow_step` and `validate_observation`).

Strings are modelled as `List Char`; the input text is scanned exactly as the
Python `for i, char in enumerate(orig_response)` loop does, with an `Int`
depth counter and an `Int` start index whose sentinel is `-1`.
The JSON decoder (`json.loads`) and the Command-Factory collaborator
(`action_from_dict`) are external to the scanned source file; they are
modelled as an abstract `decode` parameter whose three possible outcomes
mirror the three control paths of the `try` block in `parse_response`.
-/

namespace Micro

/-- Decidable equality for `Except`, used to evaluate concrete runs. -/
instance {ε α : Type} [DecidableEq ε] [DecidableEq α] : DecidableEq (Except ε α) :=
  fun a b =>
    match a, b with
    | .ok x, .ok y => decidable_of_iff (x = y) (by simp)
    | .error x, .error y => decidable_of_iff (x = y) (by simp)
    | .ok _, .error _ => isFalse (by simp)
    | .error _, .ok _ => isFalse (by simp)

/-- A concrete Command produced by the external Command-Factory collaborator
(`action_from_dict`). Its internal structure is opaque to this core. -/
structure Command where
  id : Nat
deriving DecidableEq

/-- Abstract token for a `json.JSONDecodeError` raised by `json.loads`. -/
abbrev JsonErr := Nat

/-- Abstract token for a failure of the Command-Factory collaborator. -/
abbrev FactoryErr := Nat

/-- The three possible outcomes of `json.loads` followed by
`action_from_dict` on a candidate substring, as seen from the `try` block of
`parse_response`. -/
inductive DecodeOutcome where
  | ok (c : Command)
  | jsonError (e : JsonErr)
  | factoryError (e : FactoryErr)
deriving DecidableEq

/-- The errors `parse_response` can surface. `invalidJson` is the
`LLMOutputError` raised in the `except json.JSONDecodeError` handler (with
the decode error as nested cause, `raise ... from e`); `noObject` is the
`LLMOutputError` raised when the scan ends with no balanced region closed.
`factoryFailure` — Modelled from the spec: `action_from_dict` is not part of
the scanned source; per the spec, a failure of the Command-Factory
collaborator is a `MalformedOutput` carrying the factory failure as a nested
cause, and it propagates uncaught through `parse_response`. -/
inductive LLMOutputError where
  | invalidJson (cause : JsonErr)
  | noObject
  | factoryFailure (cause : FactoryErr)
deriving DecidableEq

/-- The body of the `try` block of `parse_response` on the candidate
substring: decode, build the action, or convert a JSON decode error into the
`invalidJson` variant of `LLMOutputError`; a factory failure propagates. -/
def decodeCandidate (decode : List Char → DecodeOutcome) (response : List Char) :
    Except LLMOutputError Command :=
  match decode response with
  | .ok c => .ok c
  | .jsonError e => .error (.invalidJson e)
  | .factoryError e => .error (.factoryFailure e)

/-- The scanning loop of `parse_response`. `orig` is the whole input
(`orig_response`), the fourth argument is the remaining suffix still to scan,
then the current index `i`, the current `depth`, and `start` (`-1` when no
candidate start has been recorded). The Python slice
`orig_response[start : i + 1]` becomes `(orig.drop start.toNat).take (i + 1 - start.toNat)`. -/
def parseGo (decode : List Char → DecodeOutcome) (orig : List Char) :
    List Char → Nat → Int → Int → Except LLMOutputError Command
  | [], _i, _depth, _start => .error .noObject
  | c :: rest, i, depth, start =>
    if c = '{' then
      parseGo decode orig rest (i + 1) (depth + 1)
        (if depth = 0 then (i : Int) else start)
    else if c = '}' then
      if depth - 1 = 0 ∧ start ≠ -1 then
        decodeCandidate decode ((orig.drop start.toNat).take (i + 1 - start.toNat))
      else
        parseGo decode orig rest (i + 1) (depth - 1) start
    else
      parseGo decode orig rest (i + 1) depth start

/-- `parse_response(orig_response)`: scan the whole text from index 0 with
depth 0 and no recorded start. -/
def parse_response (decode : List Char → DecodeOutcome) (orig : List Char) :
    Except LLMOutputError Command :=
  parseGo decode orig orig 0 0 (-1)

/-- Depth contribution of one character. -/
def braceDelta (c : Char) : Int :=
  if c = '{' then 1 else if c = '}' then -1 else 0

/-- Net brace depth of a character list. -/
def braceDepth : List Char → Int
  | [] => 0
  | c :: rest => braceDelta c + braceDepth rest

/-- `objScan body d = true` iff scanning `body` starting from depth `d`
first returns the depth to zero exactly at the end of `body`. -/
def objScan : List Char → Int → Bool
  | [], d => d = 0
  | c :: rest, d => d ≠ 0 && objScan rest (d + braceDelta c)

/-- A syntactically balanced object: it opens with `{`, and the depth first
returns to zero exactly at its final character. -/
def isBalancedObject : List Char → Bool
  | [] => false
  | c :: body => c = '{' && objScan body 1

/-!
Workflow Driver: `MicroAgent.__init__`, `step_workflow`,
`update_previous_workflow_step`, `validate_observation`.
A step of the agent definition's `workflow` list is a mapping with a `name`
and a `do` sub-mapping (`do` is reserved in Lean, so the field is `sdo`);
the `do` sub-mapping may carry an `action` key (its value compared against
`action.action` of the log entries) and/or a `prompt` key.
-/

/-- The `do` mapping of a workflow step: optional `action` discriminator and
optional `prompt` template. An absent or empty `do` mapping is the
both-`none` value (matching `step.get('do', {})`). -/
structure StepDo where
  action : Option String
  prompt : Option String
deriving DecidableEq

/-- One entry of the `workflow` list: a `name` and its `do` mapping. -/
structure Step where
  name : String
  sdo : StepDo
deriving DecidableEq

/-- An execution result fed back through `state.updated_info`:
`CmdOutputObservation` carries an integer `exit_code`; every other
observation kind is collapsed into `other`. -/
inductive Observation where
  | cmdOutput (exit_code : Int)
  | other
deriving DecidableEq

/-- The action half of an `updated_info` pair; only its `action`
discriminator attribute is read by the driver. -/
structure LogAction where
  action : String
deriving DecidableEq

/-- The part of the controller `State` read by the driver: the
`updated_info` list of (action, observation) pairs. -/
structure AState where
  updated_info : List (LogAction × Observation)
deriving DecidableEq

/-- The mutable per-agent workflow state: `self.workflow_step` and
`self.workflow_data` (a dict, modelled as an insertion-ordered association
list with in-place overwrite on an existing key). -/
structure WState where
  workflow_step : Nat
  workflow_data : List (String × Observation)
deriving DecidableEq

/-- The observable result of one `step_workflow` call: `finish` is
`AgentFinishAction()`, `reject` is `AgentRejectAction()`, `command c` is the
action built by `action_from_dict(do)` for a fixed step, `prompted p` is the
delegation to `prompt_to_action` with the step's prompt template (the
completion round-trip is external), and `stepDefError` is the
`ValueError('Step must contain either an action or a prompt')`. -/
inductive StepOutcome where
  | finish
  | reject
  | command (c : Command)
  | prompted (prompt : String)
  | stepDefError
deriving DecidableEq

/-- `validate_observation`: a `CmdOutputObservation` is valid iff its
`exit_code` equals 0; every other observation is valid. The `action`
argument is unused, as in the source. -/
def validate_observation (_action : LogAction) (obs : Observation) : Bool :=
  match obs with
  | .cmdOutput exit_code => exit_code == 0
  | .other => true

/-- Python dict assignment `d[k] = v`: overwrite the existing entry for `k`
in place, else append. -/
def dictInsert (d : List (String × Observation)) (k : String) (v : Observation) :
    List (String × Observation) :=
  match d with
  | [] => [(k, v)]
  | (k', v') :: rest =>
    if k' = k then (k, v) :: rest else (k', v') :: dictInsert rest k v

/-- The `for action, obs in state.updated_info` loop of
`update_previous_workflow_step`: on a pair whose action discriminator
matches the previous step's fixed `action`, first record the observation
under the previous step's name, then validate it; a failing validation
returns `False` at once with the data written so far. -/
def updateLoop (prev_step : Step) (pairs : List (LogAction × Observation))
    (data : List (String × Observation)) : Bool × List (String × Observation) :=
  match pairs with
  | [] => (true, data)
  | (a, obs) :: rest =>
    match prev_step.sdo.action with
    | some act =>
      if a.action = act then
        let data' := dictInsert data prev_step.name obs
        if validate_observation a obs then updateLoop prev_step rest data'
        else (false, data')
      else updateLoop prev_step rest data
    | none => updateLoop prev_step rest data

/-- `update_previous_workflow_step`: look up the previous step
(`workflow[workflow_step - 1]`) and run the validation loop over
`state.updated_info`. The `none` branch is unreachable from `step_workflow`,
which only calls this with `0 < workflow_step < length workflow` (in Python
an out-of-range index would raise `IndexError`). -/
def update_previous_workflow_step (wf : List Step) (wstep : Nat)
    (data : List (String × Observation)) (state : AState) :
    Bool × List (String × Observation) :=
  match wf.get? (wstep - 1) with
  | some prev_step => updateLoop prev_step state.updated_info data
  | none => (true, data)

/-- The `agent_definition` mapping: its optional `name` key and its
`workflow` list. -/
structure AgentDefinition where
  name : Option String
  workflow : List Step
deriving DecidableEq

/-- The construction-time error of `MicroAgent.__init__`:
`ValueError('Agent definition must contain a name')`. -/
inductive InitError where
  | missingName
deriving DecidableEq

/-- `MicroAgent.__init__`: fail if the agent definition has no `name`,
otherwise initialise `workflow_step = 0` and empty `workflow_data`. The
steps of the workflow are not inspected here. (The sibling-delegates
registry bookkeeping touches only external state and is omitted.) -/
def microAgentInit (d : AgentDefinition) : Except InitError WState :=
  if d.name = none then .error .missingName
  else .ok ⟨0, []⟩

/-- The `if 'action' in do / elif 'prompt' in do / else raise` branch of
`step_workflow`, which only chooses what the call produces (the step-index
increment has already happened before it). -/
def stepAction (afd : StepDo → Command) (step : Step) : StepOutcome :=
  match step.sdo.action with
  | some _ => .command (afd step.sdo)
  | none =>
    match step.sdo.prompt with
    | some p => .prompted p
    | none => .stepDefError

/-- `step_workflow`, one `advance` call: finish when the step index has
passed the end; otherwise validate the previous step when `workflow_step > 0`
(rejecting on failure, with the data written by the loop retained);
otherwise take the current step, increment `workflow_step` (this precedes
the branch on the step's `do` mapping), and produce the fixed command
(`action_from_dict(do)`, with the external factory passed in as `afd`) when
the `do` mapping has an `action` key, else delegate to the prompt pipeline
when it has a `prompt` key, else raise the step-definition `ValueError`. -/
def step_workflow (afd : StepDo → Command) (wf : List Step) (st : WState)
    (state : AState) : StepOutcome × WState :=
  if h : wf.length ≤ st.workflow_step then (.finish, st)
  else
    let vres :=
      if 0 < st.workflow_step then
        update_previous_workflow_step wf st.workflow_step st.workflow_data state
      else (true, st.workflow_data)
    if vres.1 = false then (.reject, ⟨st.workflow_step, vres.2⟩)
    else
      (stepAction afd (wf.get ⟨st.workflow_step, by omega⟩),
       ⟨st.workflow_step + 1, vres.2⟩)

/-- The workflow state after `k` successive `advance` calls, where `logs k`
is the controller state fed to the `(k+1)`th call. -/
def advanceN (afd : StepDo → Command) (wf : List Step) (logs : Nat → AState) :
    Nat → WState
  | 0 => ⟨0, []⟩
  | k + 1 => (step_workflow afd wf (advanceN afd wf logs k) (logs k)).2

/-- The data produced by recording every matching pair of a log, in order
(the reference point for the validation loop's behaviour when no matching
pair fails). -/
def recordedAll (prev_step : Step) (pairs : List (LogAction × Observation))
    (data : List (String × Observation)) : List (String × Observation) :=
  match pairs with
  | [] => data
  | (a, obs) :: rest =>
    match prev_step.sdo.action with
    | some act =>
      if a.action = act then recordedAll prev_step rest (dictInsert data prev_step.name obs)
      else recordedAll prev_step rest data
    | none => recordedAll prev_step rest data

/-!
Concrete sample data used to evaluate the verified statements on explicit
inputs. Brace characters inside string literals are written with their
escape codes.
-/

/-- A sample decoder standing for `json.loads` + `action_from_dict`:
`{ag}` decodes to command 3, `{bad}` raises a JSON decode error, `{fac}`
makes the Command-Factory fail, `{ok}` decodes to command 1, anything else
is a JSON decode error. -/
def demoDecode : List Char → DecodeOutcome := fun l =>
  if l = "\x7bag\x7d".toList then .ok ⟨3⟩
  else if l = "\x7bbad\x7d".toList then .jsonError 5
  else if l = "\x7bfac\x7d".toList then .factoryError 4
  else if l = "\x7bok\x7d".toList then .ok ⟨1⟩
  else .jsonError 0

/-- A decoder for the unmatched-closer scenario: both the full later object
`{a{b}}` and its nested sub-object `{b}` decode successfully. -/
def nestedDecode : List Char → DecodeOutcome := fun l =>
  if l = "\x7ba\x7bb\x7d\x7d".toList then .ok ⟨1⟩
  else if l = "\x7bb\x7d".toList then .ok ⟨2⟩
  else .jsonError 0

/-- A sample Command-Factory for fixed workflow steps. -/
def demoAfd : StepDo → Command := fun _ => ⟨9⟩

/-- A fixed command step named `s0` with action discriminator `run`. -/
def demoStep0 : Step := ⟨"s0", ⟨some "run", none⟩⟩

/-- A fixed command step named `s1` with action discriminator `run2`. -/
def demoStep1 : Step := ⟨"s1", ⟨some "run2", none⟩⟩

/-- A two-step procedure of fixed commands. -/
def demoWf : List Step := [demoStep0, demoStep1]

/-- A step whose `do` mapping carries both an `action` and a `prompt`. -/
def demoBoth : Step := ⟨"sb", ⟨some "run", some "say done"⟩⟩

/-- An agent definition with a name whose only step lacks both `action`
and `prompt`. -/
def defnNoActionPrompt : AgentDefinition := ⟨some "agentA", [⟨"s0", ⟨none, none⟩⟩]⟩

/-! Scanning lemmas for the Response Extractor. -/

theorem drop_append_length {α : Type} (l₁ l₂ : List α) :
    (l₁ ++ l₂).drop l₁.length = l₂ := by
  induction l₁ with
  | nil => simp
  | cons a l ih => simp [ih]

theorem take_append_length {α : Type} (l₁ l₂ : List α) :
    (l₁ ++ l₂).take l₁.length = l₁ := by
  induction l₁ with
  | nil => simp
  | cons a l ih => simp [ih]

/-- One unfolding step of the scanner on a non-empty suffix. -/
theorem parseGo_cons (decode : List Char → DecodeOutcome) (orig : List Char)
    (c : Char) (rest : List Char) (i : Nat) (depth start : Int) :
    parseGo decode orig (c :: rest) i depth start =
      if c = '{' then
        parseGo decode orig rest (i + 1) (depth + 1)
          (if depth = 0 then (i : Int) else start)
      else if c = '}' then
        if depth - 1 = 0 ∧ start ≠ -1 then
          decodeCandidate decode ((orig.drop start.toNat).take (i + 1 - start.toNat))
        else
          parseGo decode orig rest (i + 1) (depth - 1) start
      else
        parseGo decode orig rest (i + 1) depth start := rfl

/-- The scanner on an exhausted suffix raises the no-object error. -/
theorem parseGo_nil (decode : List Char → DecodeOutcome) (orig : List Char)
    (i : Nat) (depth start : Int) :
    parseGo decode orig [] i depth start = .error .noObject := rfl

/-- Scanning prose with no brace characters changes only the index. -/
theorem parseGo_prose (decode : List Char → DecodeOutcome) (orig : List Char)
    (l rest : List Char) (i : Nat) (depth start : Int)
    (hl : ∀ c ∈ l, c ≠ '{' ∧ c ≠ '}') :
    parseGo decode orig (l ++ rest) i depth start
      = parseGo decode orig rest (i + l.length) depth start := by
  induction l generalizing i with
  | nil => simp
  | cons c l ih =>
    obtain ⟨h1, h2⟩ := hl c (List.mem_cons_self c l)
    have hl' : ∀ x ∈ l, x ≠ '{' ∧ x ≠ '}' := fun x hx => hl x (List.mem_cons_of_mem c hx)
    have harith : i + (c :: l).length = i + 1 + l.length := by
      simp only [List.length_cons]
      omega
    rw [List.cons_append, parseGo_cons, if_neg h1, if_neg h2, harith]
    exact ih (i + 1) hl'

/-- Scanning the inside of a balanced object with a recorded start triggers
decoding of the slice ending at the object's final character; the text after
the object is never inspected. -/
theorem parseGo_object (decode : List Char → DecodeOutcome) (orig : List Char)
    (body : List Char) (tail : List Char) (i : Nat) (d : Int) (n : Nat)
    (hd : 0 < d) (hscan : objScan body d = true) :
    parseGo decode orig (body ++ tail) i d (n : Int)
      = decodeCandidate decode ((orig.drop n).take (i + body.length - n)) := by
  induction body generalizing i d with
  | nil =>
    simp only [objScan, decide_eq_true_eq] at hscan
    omega
  | cons c body ih =>
    simp only [objScan, Bool.and_eq_true, decide_eq_true_eq] at hscan
    obtain ⟨hd0, hrest⟩ := hscan
    by_cases h1 : c = '{'
    · subst h1
      rw [show braceDelta '{' = 1 from rfl] at hrest
      rw [List.cons_append, parseGo_cons, if_pos rfl, if_neg hd0,
        ih (i + 1) (d + 1) (by omega) hrest]
      have harith : i + 1 + body.length - n = i + (('{' :: body).length) - n := by
        simp only [List.length_cons]
        omega
      rw [harith]
    · by_cases h2 : c = '}'
      · subst h2
        rw [show braceDelta '}' = -1 from rfl] at hrest
        by_cases hd1 : d = 1
        · subst hd1
          cases body with
          | cons x xs =>
            rw [show (1 : Int) + -1 = 0 from rfl] at hrest
            simp [objScan] at hrest
          | nil =>
            rw [List.cons_append, List.nil_append, parseGo_cons, if_neg h1,
              if_pos rfl, if_pos ⟨by omega, by omega⟩]
            have htn : ((n : Int)).toNat = n := rfl
            rw [htn]
            simp [List.length_cons]
        · rw [List.cons_append, parseGo_cons, if_neg h1, if_pos rfl,
            if_neg (by rintro ⟨h, -⟩; omega)]
          rw [show d + -1 = d - 1 from by ring] at hrest
          rw [ih (i + 1) (d - 1) (by omega) hrest]
          have harith : i + 1 + body.length - n = i + (('}' :: body).length) - n := by
            simp only [List.length_cons]
            omega
          rw [harith]
      · have hdel : braceDelta c = 0 := by simp [braceDelta, h1, h2]
        rw [hdel, show d + 0 = d from by ring] at hrest
        rw [List.cons_append, parseGo_cons, if_neg h1, if_neg h2,
          ih (i + 1) d hd hrest]
        have harith : i + 1 + body.length - n = i + ((c :: body).length) - n := by
          simp only [List.length_cons]
          omega
        rw [harith]

/-- `parse_response` on prose, a balanced object, and an arbitrary
remainder decodes exactly the balanced object. -/
theorem parse_response_first_region (decode : List Char → DecodeOutcome)
    (pre obj post : List Char)
    (hpre : ∀ c ∈ pre, c ≠ '{' ∧ c ≠ '}')
    (hobj : isBalancedObject obj = true) :
    parse_response decode (pre ++ obj ++ post) = decodeCandidate decode obj := by
  cases obj with
  | nil => simp [isBalancedObject] at hobj
  | cons c body =>
    simp only [isBalancedObject, Bool.and_eq_true, decide_eq_true_eq] at hobj
    obtain ⟨hc, hscan⟩ := hobj
    subst hc
    unfold parse_response
    rw [List.append_assoc]
    rw [parseGo_prose decode _ pre (('{' :: body) ++ post) 0 0 (-1) hpre]
    rw [List.cons_append, parseGo_cons, if_pos rfl, if_pos rfl]
    simp only [Nat.zero_add, zero_add]
    rw [parseGo_object decode _ body post (pre.length + 1) 1 pre.length
      (by omega) hscan]
    have harith : pre.length + 1 + body.length - pre.length = body.length + 1 := by omega
    rw [drop_append_length, harith]
    have htake : ('{' :: (body ++ post)).take (body.length + 1) = '{' :: body := by
      rw [List.take_succ_cons, take_append_length]
    rw [htake]

/-- With no opening delimiter in the rest of the text, the start marker is
never recorded and the scan ends in the no-object error. -/
theorem parseGo_no_open (decode : List Char → DecodeOutcome) (orig : List Char)
    (l : List Char) (i : Nat) (depth : Int)
    (hl : ∀ c ∈ l, c ≠ '{') :
    parseGo decode orig l i depth (-1) = .error .noObject := by
  induction l generalizing i depth with
  | nil => rfl
  | cons c l ih =>
    have h1 : c ≠ '{' := hl c (List.mem_cons_self c l)
    have hl' : ∀ x ∈ l, x ≠ '{' := fun x hx => hl x (List.mem_cons_of_mem c hx)
    rw [parseGo_cons, if_neg h1]
    by_cases h2 : c = '}'
    · rw [if_pos h2, if_neg (fun h => h.2 rfl)]
      exact ih (i + 1) (depth - 1) hl'
    · rw [if_neg h2]
      exact ih (i + 1) depth hl'

/-- Whether the scan ends in the no-object error does not depend on the
decoder: the decoder is consulted only when a balanced region closes, and
then the result is never the no-object error. -/
theorem parseGo_noObject_decoder_indep (decA decB : List Char → DecodeOutcome)
    (orig : List Char) :
    ∀ (l : List Char) (i : Nat) (depth start : Int),
      parseGo decA orig l i depth start = .error .noObject →
      parseGo decB orig l i depth start = .error .noObject := by
  intro l
  induction l with
  | nil => intro i depth start _; rfl
  | cons c l ih =>
    intro i depth start h
    rw [parseGo_cons] at h ⊢
    by_cases h1 : c = '{'
    · rw [if_pos h1] at h ⊢
      exact ih _ _ _ h
    · rw [if_neg h1] at h ⊢
      by_cases h2 : c = '}'
      · rw [if_pos h2] at h ⊢
        by_cases h3 : depth - 1 = 0 ∧ start ≠ -1
        · rw [if_pos h3] at h ⊢
          exfalso
          rcases hdec : decA ((orig.drop start.toNat).take (i + 1 - start.toNat)) with
            c' | e | e <;> simp [decodeCandidate, hdec] at h
        · rw [if_neg h3] at h ⊢
          exact ih _ _ _ h
      · rw [if_neg h2] at h ⊢
        exact ih _ _ _ h

/-- If every opening delimiter in the remaining text occurs at a point where
the accumulated depth is nonzero, a start is never recorded and the scan
ends in the no-object error. -/
theorem parseGo_never_opened (decode : List Char → DecodeOutcome) (orig : List Char) :
    ∀ (l : List Char) (i : Nat) (d : Int),
      (∀ k, k < l.length → l.getD k ' ' = '{' → d + braceDepth (l.take k) ≠ 0) →
      parseGo decode orig l i d (-1) = .error .noObject := by
  intro l
  induction l with
  | nil => intro i d _; rfl
  | cons c l ih =>
    intro i d h
    have htail : ∀ k, k < l.length → l.getD k ' ' = '{' →
        (d + braceDelta c) + braceDepth (l.take k) ≠ 0 := by
      intro k hk hck
      have := h (k + 1) (by simp [List.length_cons]; omega)
        (by simpa [List.getD_cons_succ] using hck)
      simp only [List.take_succ_cons, braceDepth] at this
      omega
    rw [parseGo_cons]
    by_cases h1 : c = '{'
    · have hd : d ≠ 0 := by
        have := h 0 (by simp [List.length_cons]) (by simpa using h1)
        simpa [braceDepth] using this
      rw [if_pos h1, if_neg hd]
      have := htail
      rw [show braceDelta c = 1 from by simp [braceDelta, h1]] at this
      exact ih (i + 1) (d + 1) this
    · rw [if_neg h1]
      by_cases h2 : c = '}'
      · rw [if_pos h2, if_neg (fun hh => hh.2 rfl)]
        have := htail
        rw [show braceDelta c = -1 from by simp [braceDelta, h2]] at this
        exact ih (i + 1) (d - 1) (by intro k hk hck; have := this k hk hck; omega)
      · rw [if_neg h2]
        have := htail
        rw [show braceDelta c = 0 from by simp [braceDelta, h1, h2]] at this
        exact ih (i + 1) d (by intro k hk hck; have := this k hk hck; omega)

/-! Lemmas about the Workflow Driver. -/

/-- One step of the validation loop on a matching pair. -/
theorem updateLoop_cons_match (prev : Step) (act : String)
    (hact : prev.sdo.action = some act) (a : LogAction) (obs : Observation)
    (hm : a.action = act) (rest : List (LogAction × Observation))
    (data : List (String × Observation)) :
    updateLoop prev ((a, obs) :: rest) data =
      if validate_observation a obs then
        updateLoop prev rest (dictInsert data prev.name obs)
      else (false, dictInsert data prev.name obs) := by
  simp only [updateLoop, hact, if_pos hm]

/-- One step of the validation loop on a non-matching pair. -/
theorem updateLoop_cons_skip (prev : Step) (act : String)
    (hact : prev.sdo.action = some act) (a : LogAction) (obs : Observation)
    (hm : ¬ a.action = act) (rest : List (LogAction × Observation))
    (data : List (String × Observation)) :
    updateLoop prev ((a, obs) :: rest) data = updateLoop prev rest data := by
  simp only [updateLoop, hact, if_neg hm]

/-- One step of the full-recording reference on a matching pair. -/
theorem recordedAll_cons_match (prev : Step) (act : String)
    (hact : prev.sdo.action = some act) (a : LogAction) (obs : Observation)
    (hm : a.action = act) (rest : List (LogAction × Observation))
    (data : List (String × Observation)) :
    recordedAll prev ((a, obs) :: rest) data
      = recordedAll prev rest (dictInsert data prev.name obs) := by
  simp only [recordedAll, hact, if_pos hm]

/-- One step of the full-recording reference on a non-matching pair. -/
theorem recordedAll_cons_skip (prev : Step) (act : String)
    (hact : prev.sdo.action = some act) (a : LogAction) (obs : Observation)
    (hm : ¬ a.action = act) (rest : List (LogAction × Observation))
    (data : List (String × Observation)) :
    recordedAll prev ((a, obs) :: rest) data = recordedAll prev rest data := by
  simp only [recordedAll, hact, if_neg hm]

/-- When every matching pair validates, the loop returns `true` and records
every matching pair, in order. -/
theorem updateLoop_no_fail (prev : Step) (act : String)
    (hact : prev.sdo.action = some act) :
    ∀ (pairs : List (LogAction × Observation)) (data : List (String × Observation)),
      (∀ p ∈ pairs, p.1.action = act → validate_observation p.1 p.2 = true) →
      updateLoop prev pairs data = (true, recordedAll prev pairs data) := by
  intro pairs
  induction pairs with
  | nil => intro data _; rfl
  | cons p rest ih =>
    intro data hacc
    obtain ⟨a, obs⟩ := p
    by_cases hm : a.action = act
    · rw [updateLoop_cons_match prev act hact a obs hm,
        recordedAll_cons_match prev act hact a obs hm,
        if_pos (hacc (a, obs) (List.mem_cons_self _ _) hm)]
      exact ih _ (fun q hq hqa => hacc q (List.mem_cons_of_mem _ hq) hqa)
    · rw [updateLoop_cons_skip prev act hact a obs hm,
        recordedAll_cons_skip prev act hact a obs hm]
      exact ih _ (fun q hq hqa => hacc q (List.mem_cons_of_mem _ hq) hqa)

/-- When a matching pair fails validation and all earlier matching pairs
validate, the loop stops at the first failing pair: it returns `false`, the
failing observation is the last one recorded, and the earlier matching
writes are retained. -/
theorem updateLoop_fail (prev : Step) (act : String)
    (hact : prev.sdo.action = some act) (a : LogAction) (obs : Observation)
    (hma : a.action = act) (hfail : validate_observation a obs = false) :
    ∀ (l₁ l₂ : List (LogAction × Observation)) (data : List (String × Observation)),
      (∀ p ∈ l₁, p.1.action = act → validate_observation p.1 p.2 = true) →
      updateLoop prev (l₁ ++ (a, obs) :: l₂) data
        = (false, dictInsert (recordedAll prev l₁ data) prev.name obs) := by
  intro l₁
  induction l₁ with
  | nil =>
    intro l₂ data _
    rw [List.nil_append, updateLoop_cons_match prev act hact a obs hma,
      if_neg (by simp [hfail])]
    rfl
  | cons p rest ih =>
    intro l₂ data hacc
    obtain ⟨b, obs'⟩ := p
    rw [List.cons_append]
    by_cases hm : b.action = act
    · rw [updateLoop_cons_match prev act hact b obs' hm,
        if_pos (hacc (b, obs') (List.mem_cons_self _ _) hm),
        recordedAll_cons_match prev act hact b obs' hm]
      exact ih l₂ _ (fun q hq hqa => hacc q (List.mem_cons_of_mem _ hq) hqa)
    · rw [updateLoop_cons_skip prev act hact b obs' hm,
        recordedAll_cons_skip prev act hact b obs' hm]
      exact ih l₂ _ (fun q hq hqa => hacc q (List.mem_cons_of_mem _ hq) hqa)

/-- `update_previous_workflow_step` runs the loop on the previous step. -/
theorem update_previous_run (wf : List Step) (wstep : Nat)
    (data : List (String × Observation)) (state : AState) (prev : Step)
    (hprev : wf.get? (wstep - 1) = some prev) :
    update_previous_workflow_step wf wstep data state
      = updateLoop prev state.updated_info data := by
  unfold update_previous_workflow_step
  rw [hprev]

/-- `step_workflow` past the end of the procedure finishes and leaves the
workflow state untouched. -/
theorem step_workflow_finish (afd : StepDo → Command) (wf : List Step)
    (st : WState) (state : AState) (h : wf.length ≤ st.workflow_step) :
    step_workflow afd wf st state = (.finish, st) := by
  unfold step_workflow
  rw [dif_pos h]

/-- `step_workflow` within the procedure, with the validation result spelled
out. -/
theorem step_workflow_go (afd : StepDo → Command) (wf : List Step)
    (st : WState) (state : AState) (hlt : st.workflow_step < wf.length) :
    step_workflow afd wf st state =
      (if (if 0 < st.workflow_step then
             update_previous_workflow_step wf st.workflow_step st.workflow_data state
           else (true, st.workflow_data)).1 = false
       then (.reject, ⟨st.workflow_step,
         (if 0 < st.workflow_step then
            update_previous_workflow_step wf st.workflow_step st.workflow_data state
          else (true, st.workflow_data)).2⟩)
       else (stepAction afd (wf.get ⟨st.workflow_step, hlt⟩),
         ⟨st.workflow_step + 1,
          (if 0 < st.workflow_step then
             update_previous_workflow_step wf st.workflow_step st.workflow_data state
           else (true, st.workflow_data)).2⟩)) := by
  unfold step_workflow
  rw [dif_neg (by omega)]

/-- A validated (or first) call within the procedure produces the current
step's action and advances the index by one. -/
theorem step_workflow_validated (afd : StepDo → Command) (wf : List Step)
    (st : WState) (state : AState) (hlt : st.workflow_step < wf.length)
    (hvr : 0 < st.workflow_step →
      (update_previous_workflow_step wf st.workflow_step st.workflow_data state).1 = true) :
    step_workflow afd wf st state
      = (stepAction afd (wf.get ⟨st.workflow_step, hlt⟩),
         ⟨st.workflow_step + 1,
          (if 0 < st.workflow_step then
             update_previous_workflow_step wf st.workflow_step st.workflow_data state
           else (true, st.workflow_data)).2⟩) := by
  rw [step_workflow_go afd wf st state hlt]
  by_cases h0 : 0 < st.workflow_step
  · rw [if_pos h0, if_neg (by simp [hvr h0])]
  · rw [if_neg h0, if_neg (by simp)]

/-- A failed validation rejects, leaves the step index unchanged, and keeps
the data the loop wrote. -/
theorem step_workflow_rejected (afd : StepDo → Command) (wf : List Step)
    (st : WState) (state : AState) (hlt : st.workflow_step < wf.length)
    (h0 : 0 < st.workflow_step)
    (hvr : (update_previous_workflow_step wf st.workflow_step st.workflow_data state).1 = false) :
    step_workflow afd wf st state
      = (.reject, ⟨st.workflow_step,
          (update_previous_workflow_step wf st.workflow_step st.workflow_data state).2⟩) := by
  rw [step_workflow_go afd wf st state hlt]
  rw [if_pos h0, if_pos hvr]

/-- The returned action of a validated call never is the rejection signal. -/
theorem stepAction_ne_reject (afd : StepDo → Command) (s : Step) :
    stepAction afd s ≠ .reject := by
  unfold stepAction
  rcases s.sdo.action with _ | a
  · rcases s.sdo.prompt with _ | p <;> simp
  · simp

/-- The step index never decreases across an `advance` call. -/
theorem step_workflow_mono (afd : StepDo → Command) (wf : List Step)
    (st : WState) (state : AState) :
    st.workflow_step ≤ (step_workflow afd wf st state).2.workflow_step := by
  by_cases h : wf.length ≤ st.workflow_step
  · rw [step_workflow_finish afd wf st state h]
  · rw [step_workflow_go afd wf st state (by omega)]
    by_cases h0 : 0 < st.workflow_step
    · rw [if_pos h0]
      split <;> simp
    · rw [if_neg h0]
      split <;> simp

/-- Unfolding of the iterated driver. -/
theorem advanceN_succ (afd : StepDo → Command) (wf : List Step)
    (logs : Nat → AState) (k : Nat) :
    advanceN afd wf logs (k + 1)
      = (step_workflow afd wf (advanceN afd wf logs k) (logs k)).2 := rfl

/-- With fixed-command steps and all fed-back observations accepted, the
previous-step validation always succeeds. -/
theorem update_previous_accepted (wf : List Step) (wstep : Nat)
    (data : List (String × Observation)) (state : AState)
    (hws : wstep - 1 < wf.length)
    (hfix : ∀ s ∈ wf, s.sdo.action.isSome = true)
    (hacc : ∀ p ∈ state.updated_info, validate_observation p.1 p.2 = true) :
    (update_previous_workflow_step wf wstep data state).1 = true := by
  have hget : wf.get? (wstep - 1) = some (wf.get ⟨wstep - 1, hws⟩) :=
    List.get?_eq_get hws
  rw [update_previous_run wf wstep data state _ hget]
  obtain ⟨act, hact⟩ :=
    Option.isSome_iff_exists.mp (hfix _ (List.get_mem wf (wstep - 1) hws))
  rw [updateLoop_no_fail _ act hact state.updated_info data (fun p hp _ => hacc p hp)]

/-- With fixed-command steps and accepted observations, `k` calls bring the
step index exactly to `k`. -/
theorem advanceN_step_count (afd : StepDo → Command) (wf : List Step)
    (logs : Nat → AState)
    (hfix : ∀ s ∈ wf, s.sdo.action.isSome = true)
    (hacc : ∀ k, ∀ p ∈ (logs k).updated_info, validate_observation p.1 p.2 = true) :
    ∀ k, k ≤ wf.length → (advanceN afd wf logs k).workflow_step = k := by
  intro k
  induction k with
  | zero => intro _; rfl
  | succ k ih =>
    intro hk
    have hst : (advanceN afd wf logs k).workflow_step = k := ih (by omega)
    have hlt : (advanceN afd wf logs k).workflow_step < wf.length := by omega
    rw [advanceN_succ,
      step_workflow_validated afd wf _ (logs k) hlt
        (fun _ => update_previous_accepted wf _ _ _ (by omega) hfix (hacc k))]
    simp [hst]

/-! The claims. -/

/-- Claim C1: for a text made of non-bracket prose followed by a single
balanced, decodable object — with anything, including later balanced
regions, after it — `parse_response` returns the Command decoded from that
first region whose brace depth returns to zero, ignoring the surrounding
prose and everything after the region. -/
theorem extract_returns_first_balanced_object (decode : List Char → DecodeOutcome)
    (pre obj post : List Char) (c : Command)
    (hpre : ∀ ch ∈ pre, ch ≠ '{' ∧ ch ≠ '}')
    (hobj : isBalancedObject obj = true)
    (hdec : decode obj = .ok c) :
    parse_response decode (pre ++ obj ++ post) = .ok c := by
  rw [parse_response_first_region decode pre obj post hpre hobj]
  unfold decodeCandidate
  rw [hdec]

/-- Witness for Claim C1: prose around `{ag}`, with a later balanced region
`{ok}` in the trailing prose, decodes to command 3. -/
theorem extract_returns_first_balanced_object_witness :
    parse_response demoDecode
        ("Sure! ".toList ++ "\x7bag\x7d".toList ++ " \x7bok\x7d done.".toList)
      = .ok ⟨3⟩ :=
  extract_returns_first_balanced_object demoDecode "Sure! ".toList
    "\x7bag\x7d".toList " \x7bok\x7d done.".toList ⟨3⟩
    (by decide) (by decide) (by decide)

/-- Claim C2: when the first balanced region fails to decode, extraction
fails at once with the invalid-JSON `LLMOutputError`, whatever comes after
the region — in particular even when a later, valid balanced region exists
there. No fallback scan for subsequent balanced regions happens. -/
theorem extract_fails_fast_on_undecodable_first_region
    (decode : List Char → DecodeOutcome) (pre obj post : List Char) (e : JsonErr)
    (hpre : ∀ ch ∈ pre, ch ≠ '{' ∧ ch ≠ '}')
    (hobj : isBalancedObject obj = true)
    (hdec : decode obj = .jsonError e) :
    parse_response decode (pre ++ obj ++ post) = .error (.invalidJson e) := by
  rw [parse_response_first_region decode pre obj post hpre hobj]
  unfold decodeCandidate
  rw [hdec]

/-- Witness for Claim C2: `{bad}` fails to decode although the valid
`{ok}` follows later in the text. -/
theorem extract_fails_fast_on_undecodable_first_region_witness :
    parse_response demoDecode
        ("x ".toList ++ "\x7bbad\x7d".toList ++ " then \x7bok\x7d.".toList)
      = .error (.invalidJson 5) :=
  extract_fails_fast_on_undecodable_first_region demoDecode "x ".toList
    "\x7bbad\x7d".toList " then \x7bok\x7d.".toList 5
    (by decide) (by decide) (by decide)

/-- Claim C5: when the balanced region parses as a keyed mapping but the
Command-Factory collaborator fails on it, extraction fails with the
`MalformedOutput` kind carrying the factory failure as nested cause — a
constructor of the same `LLMOutputError` type as the undecodable-region
failure. (The factory itself is external; its error is modelled from the
spec.) -/
theorem extract_factory_failure_is_malformed_output
    (decode : List Char → DecodeOutcome) (pre obj post : List Char) (e : FactoryErr)
    (hpre : ∀ ch ∈ pre, ch ≠ '{' ∧ ch ≠ '}')
    (hobj : isBalancedObject obj = true)
    (hdec : decode obj = .factoryError e) :
    parse_response decode (pre ++ obj ++ post) = .error (.factoryFailure e) := by
  rw [parse_response_first_region decode pre obj post hpre hobj]
  unfold decodeCandidate
  rw [hdec]

/-- Witness for Claim C5: `{fac}` decodes as a mapping the factory rejects.
-/
theorem extract_factory_failure_is_malformed_output_witness :
    parse_response demoDecode
        ("y ".toList ++ "\x7bfac\x7d".toList ++ " end".toList)
      = .error (.factoryFailure 4) :=
  extract_factory_failure_is_malformed_output demoDecode "y ".toList
    "\x7bfac\x7d".toList " end".toList 4 (by decide) (by decide) (by decide)

/-- Claim C7: with zero opening delimiters extraction fails with the
no-object variant; and more generally, whether the scan ends with no
balanced region ever closed is decoder-independent, so a no-object failure
under any decoder is a no-object failure under every decoder. -/
theorem extract_no_object_variant (decode decode' : List Char → DecodeOutcome)
    (s : List Char) :
    ((∀ c ∈ s, c ≠ '{') → parse_response decode s = .error .noObject) ∧
    (parse_response decode' s = .error .noObject →
      parse_response decode s = .error .noObject) := by
  constructor
  · intro h
    exact parseGo_no_open decode s s 0 0 h
  · intro h
    exact parseGo_noObject_decoder_indep decode' decode s s 0 0 (-1) h

/-- Witness for Claim C7 on a text with no opening delimiter. -/
theorem extract_no_object_variant_witness :
    parse_response demoDecode "no opening delimiter here".toList
      = .error .noObject :=
  (extract_no_object_variant demoDecode demoDecode
    "no opening delimiter here".toList).1 (by decide)

/-- Claim C9 counterexample: in `}{a{b}}` an unmatched closing delimiter
precedes the first opening delimiter and the balanced, decodable object
`{a{b}}` appears later in the text; yet extraction does not fail with the
no-object error — the depth counter, at `-1` after the unmatched closer,
returns to zero at the inner `{`, a start is recorded there, and the nested
sub-object `{b}` is extracted. This refutes the claim as stated. -/
theorem unmatched_closer_no_object_counterexample :
    ("\x7d\x7ba\x7bb\x7d\x7d".toList = '}' :: "\x7ba\x7bb\x7d\x7d".toList) ∧
    isBalancedObject "\x7ba\x7bb\x7d\x7d".toList = true ∧
    nestedDecode "\x7ba\x7bb\x7d\x7d".toList = .ok ⟨1⟩ ∧
    parse_response nestedDecode "\x7d\x7ba\x7bb\x7d\x7d".toList = .ok ⟨2⟩ ∧
    parse_response nestedDecode "\x7d\x7ba\x7bb\x7d\x7d".toList
      ≠ .error .noObject := by
  refine ⟨rfl, by decide, by decide, by decide, by decide⟩

/-- Claim C9 (amended): when an unmatched closing delimiter precedes the
first opening delimiter and the running depth never returns to zero at an
opening delimiter (so a start is never recorded — e.g. when the later
objects are not nested more deeply than the number of unmatched closers),
extraction fails with the no-object error for every decoder, even when a
balanced, decodable object appears later in the text. -/
theorem unmatched_closer_never_opened (decode : List Char → DecodeOutcome)
    (t : List Char)
    (h : ∀ k, k < t.length → t.getD k ' ' = '{' → braceDepth (t.take k) ≠ 0) :
    parse_response decode t = .error .noObject := by
  unfold parse_response
  exact parseGo_never_opened decode t t 0 0
    (fun k hk hck => by have := h k hk hck; omega)

/-- Witness for the amended Claim C9: `}{ag}` holds the balanced,
decodable object `{ag}` after an unmatched closer, and extraction fails
with the no-object error. -/
theorem unmatched_closer_never_opened_witness :
    parse_response demoDecode "\x7d\x7bag\x7d".toList = .error .noObject :=
  unmatched_closer_never_opened demoDecode "\x7d\x7bag\x7d".toList (by decide)

/-- Claim C3: on a procedure whose steps are all fixed commands with
accepted outcomes, the first `N` advance calls each produce the fixed
command of their step, the `(N+1)`th call produces the finish signal with
the step index at `N`; the index starts at 0, rises by exactly one per
successful advance, and never decreases on any call. -/
theorem workflow_runs_all_fixed_steps_then_finishes (afd : StepDo → Command)
    (wf : List Step) (logs : Nat → AState)
    (hfix : ∀ s ∈ wf, s.sdo.action.isSome = true)
    (hacc : ∀ k, ∀ p ∈ (logs k).updated_info, validate_observation p.1 p.2 = true) :
    (∀ k, k ≤ wf.length → (advanceN afd wf logs k).workflow_step = k) ∧
    (∀ k, (hk : k < wf.length) →
      (step_workflow afd wf (advanceN afd wf logs k) (logs k)).1
        = .command (afd (wf.get ⟨k, hk⟩).sdo)) ∧
    (step_workflow afd wf (advanceN afd wf logs wf.length) (logs wf.length)).1
      = .finish ∧
    (advanceN afd wf logs wf.length).workflow_step = wf.length ∧
    (∀ st state, st.workflow_step ≤ (step_workflow afd wf st state).2.workflow_step) := by
  have hcount := advanceN_step_count afd wf logs hfix hacc
  refine ⟨hcount, ?_, ?_, hcount wf.length (le_refl _),
    fun st state => step_workflow_mono afd wf st state⟩
  · intro k hk
    have hst : (advanceN afd wf logs k).workflow_step = k := hcount k (by omega)
    have hlt : (advanceN afd wf logs k).workflow_step < wf.length := by omega
    rw [step_workflow_validated afd wf _ (logs k) hlt
      (fun _ => update_previous_accepted wf _ _ _ (by omega) hfix (hacc k))]
    have hfin : (⟨(advanceN afd wf logs k).workflow_step, hlt⟩ : Fin wf.length)
        = ⟨k, hk⟩ := Fin.ext hst
    show stepAction afd (wf.get ⟨(advanceN afd wf logs k).workflow_step, hlt⟩) = _
    rw [hfin]
    obtain ⟨act, hact⟩ :=
      Option.isSome_iff_exists.mp (hfix _ (List.get_mem wf k hk))
    unfold stepAction
    rw [hact]
  · have hN : (advanceN afd wf logs wf.length).workflow_step = wf.length :=
      hcount wf.length (le_refl _)
    rw [step_workflow_finish afd wf _ (logs wf.length) (by omega)]

/-- Witness for Claim C3 on a concrete one-step procedure with empty logs:
the second call finishes with the step index at 1. -/
theorem workflow_runs_all_fixed_steps_then_finishes_witness :
    (step_workflow demoAfd [demoStep0]
        (advanceN demoAfd [demoStep0] (fun _ => ⟨[]⟩) 1)
        ((fun _ => (⟨[]⟩ : AState)) 1)).1 = .finish ∧
    (advanceN demoAfd [demoStep0] (fun _ => ⟨[]⟩) 1).workflow_step = 1 := by
  have h := workflow_runs_all_fixed_steps_then_finishes demoAfd [demoStep0]
    (fun _ => ⟨[]⟩) (by decide) (fun k p hp => by simp at hp)
  exact ⟨by simpa using h.2.2.1, by simpa using h.2.2.2.1⟩

/-- Claim C4 counterexample: with the previous step a fixed `run` command
and the log holding two matching pairs — first a failing non-zero-status
outcome, then an accepted zero-status outcome — the advance call rejects
and the second matching pair is never recorded: the final data holds only
the failing outcome, refuting that every matching pair is recorded. -/
theorem validation_every_matching_pair_recorded_counterexample :
    step_workflow demoAfd demoWf ⟨1, []⟩
        ⟨[(⟨"run"⟩, .cmdOutput 1), (⟨"run"⟩, .cmdOutput 0)]⟩
      = (.reject, ⟨1, [("s0", .cmdOutput 1)]⟩) ∧
    demoStep0.sdo.action = some "run" ∧
    validate_observation ⟨"run"⟩ (.cmdOutput 0) = true ∧
    Observation.cmdOutput 0 ∉
      ((step_workflow demoAfd demoWf ⟨1, []⟩
        ⟨[(⟨"run"⟩, .cmdOutput 1), (⟨"run"⟩, .cmdOutput 0)]⟩).2.workflow_data.map
        Prod.snd) := by
  refine ⟨by decide, by decide, by decide, by decide⟩

/-- Claim C4 (amended): during previous-step validation of a step with a
fixed action, matching pairs are recorded in order up to and including the
first failing one (later matching pairs are not reached); a `CmdOutput`
outcome is accepted exactly when its status code is zero while any other
outcome kind is unconditionally accepted; when a matching pair fails
acceptance the advance call returns the rejection signal with the step
index unchanged and the data already written — the failing outcome
included — retained, not rolled back; when every matching pair is accepted
the call does not reject and every matching pair has been recorded in
order. -/
theorem validation_records_until_first_failure :
    (∀ a ec, (validate_observation a (.cmdOutput ec) = true) ↔ ec = 0) ∧
    (∀ a, validate_observation a .other = true) ∧
    (∀ afd wf st state prev act a obs l₁ l₂,
      st.workflow_step < wf.length → 0 < st.workflow_step →
      wf.get? (st.workflow_step - 1) = some prev →
      prev.sdo.action = some act →
      state.updated_info = l₁ ++ (a, obs) :: l₂ →
      (∀ p ∈ l₁, p.1.action = act → validate_observation p.1 p.2 = true) →
      a.action = act → validate_observation a obs = false →
      step_workflow afd wf st state
        = (.reject, ⟨st.workflow_step,
            dictInsert (recordedAll prev l₁ st.workflow_data) prev.name obs⟩)) ∧
    (∀ afd wf st state prev act,
      st.workflow_step < wf.length → 0 < st.workflow_step →
      wf.get? (st.workflow_step - 1) = some prev →
      prev.sdo.action = some act →
      (∀ p ∈ state.updated_info, p.1.action = act →
        validate_observation p.1 p.2 = true) →
      (step_workflow afd wf st state).1 ≠ .reject ∧
      (step_workflow afd wf st state).2.workflow_data
        = recordedAll prev state.updated_info st.workflow_data) := by
  refine ⟨?_, ?_, ?_, ?_⟩
  · intro a ec
    simp [validate_observation]
  · intro a
    rfl
  · intro afd wf st state prev act a obs l₁ l₂ hlt h0 hprev hact hsplit hearlier hma hfail
    have hupd : update_previous_workflow_step wf st.workflow_step st.workflow_data state
        = (false, dictInsert (recordedAll prev l₁ st.workflow_data) prev.name obs) := by
      rw [update_previous_run wf _ _ _ prev hprev, hsplit]
      exact updateLoop_fail prev act hact a obs hma hfail l₁ l₂ st.workflow_data hearlier
    rw [step_workflow_rejected afd wf st state hlt h0 (by rw [hupd]), hupd]
  · intro afd wf st state prev act hlt h0 hprev hact hacc
    have hupd : update_previous_workflow_step wf st.workflow_step st.workflow_data state
        = (true, recordedAll prev state.updated_info st.workflow_data) := by
      rw [update_previous_run wf _ _ _ prev hprev]
      exact updateLoop_no_fail prev act hact state.updated_info st.workflow_data hacc
    have hv := step_workflow_validated afd wf st state hlt (fun _ => by rw [hupd])
    constructor
    · rw [hv]
      exact stepAction_ne_reject afd _
    · rw [hv]
      simp [if_pos h0, hupd]

/-- Witness for the amended Claim C4 at the spec's rejection example: a
two-step procedure whose step 0 is the fixed `run` command, with the log
reporting a non-zero status for it — the second advance rejects and the
collected data holds the non-zero-status outcome under `s0`. -/
theorem validation_records_until_first_failure_witness :
    step_workflow demoAfd demoWf ⟨1, []⟩ ⟨[(⟨"run"⟩, .cmdOutput 7)]⟩
      = (.reject, ⟨1, [("s0", .cmdOutput 7)]⟩) := by
  exact (validation_records_until_first_failure).2.2.1 demoAfd demoWf ⟨1, []⟩
    ⟨[(⟨"run"⟩, .cmdOutput 7)]⟩ demoStep0 "run" ⟨"run"⟩ (.cmdOutput 7) [] []
    (by decide) (by decide) (by decide) (by decide) rfl (by simp) (by decide)
    (by decide)

/-- Claim C6 counterexample: an agent definition carrying a name whose only
step lacks both `action` and `prompt` is constructed successfully — the
definition error of the step is not detected at construction time; it
surfaces only when the step is reached by an advance call. -/
theorem definition_error_at_construction_counterexample :
    microAgentInit defnNoActionPrompt = .ok ⟨0, []⟩ ∧
    step_workflow demoAfd defnNoActionPrompt.workflow ⟨0, []⟩ ⟨[]⟩
      = (.stepDefError, ⟨1, []⟩) := by
  refine ⟨by decide, by decide⟩

/-- Claim C6 (amended): an agent definition lacking a name fails at
construction time with the missing-name error, and construction otherwise
succeeds without inspecting the steps; a step lacking both `action` and
`prompt` raises its definition error at advance time, when that step is
reached. -/
theorem definition_errors_detection_times (d : AgentDefinition)
    (afd : StepDo → Command) (wf : List Step) (st : WState) (state : AState)
    (hlt : st.workflow_step < wf.length)
    (ha : (wf.get ⟨st.workflow_step, hlt⟩).sdo.action = none)
    (hp : (wf.get ⟨st.workflow_step, hlt⟩).sdo.prompt = none)
    (hvr : 0 < st.workflow_step →
      (update_previous_workflow_step wf st.workflow_step st.workflow_data state).1 = true) :
    (d.name = none → microAgentInit d = .error .missingName) ∧
    (d.name ≠ none → microAgentInit d = .ok ⟨0, []⟩) ∧
    (step_workflow afd wf st state).1 = .stepDefError := by
  refine ⟨?_, ?_, ?_⟩
  · intro hn
    unfold microAgentInit
    rw [if_pos hn]
  · intro hn
    unfold microAgentInit
    rw [if_neg hn]
  · rw [step_workflow_validated afd wf st state hlt hvr]
    show stepAction afd (wf.get ⟨st.workflow_step, hlt⟩) = _
    unfold stepAction
    rw [ha, hp]

/-- Witness for the amended Claim C6 at a concrete nameless definition and a
concrete both-missing step. -/
theorem definition_errors_detection_times_witness :
    microAgentInit ⟨none, []⟩ = .error .missingName ∧
    (step_workflow demoAfd defnNoActionPrompt.workflow ⟨0, []⟩ ⟨[]⟩).1
      = .stepDefError := by
  refine ⟨?_, ?_⟩
  · exact (definition_errors_detection_times ⟨none, []⟩ demoAfd
      defnNoActionPrompt.workflow ⟨0, []⟩ ⟨[]⟩ (by decide) (by decide) (by decide)
      (fun h => absurd h (by decide))).1 rfl
  · exact (definition_errors_detection_times ⟨none, []⟩ demoAfd
      defnNoActionPrompt.workflow ⟨0, []⟩ ⟨[]⟩ (by decide) (by decide) (by decide)
      (fun h => absurd h (by decide))).2.2

/-- Claim C8: once the step index has reached the procedure's length, every
advance call returns the finish signal before previous-step validation
runs, with the step index and collected data unchanged — for every fed-back
log, so a failing outcome recorded for the last step still yields the
finish signal, never the rejection signal. -/
theorem finished_before_validation (afd : StepDo → Command) (wf : List Step)
    (st : WState) (state : AState) (h : wf.length ≤ st.workflow_step) :
    step_workflow afd wf st state = (.finish, st) :=
  step_workflow_finish afd wf st state h

/-- Witness for Claim C8: the log reports a failing non-zero status for the
last step's command, yet the call finishes and leaves the state unchanged.
-/
theorem finished_before_validation_witness :
    step_workflow demoAfd [demoStep0] ⟨1, [("s0", .cmdOutput 3)]⟩
        ⟨[(⟨"run"⟩, .cmdOutput 3)]⟩
      = (.finish, ⟨1, [("s0", .cmdOutput 3)]⟩) :=
  finished_before_validation demoAfd [demoStep0] ⟨1, [("s0", .cmdOutput 3)]⟩
    ⟨[(⟨"run"⟩, .cmdOutput 3)]⟩ (by decide)

/-- Claim C10: a step whose `do` mapping carries both an `action` entry and
a `prompt` entry yields the fixed command built from the mapping; the
prompt is never rendered and no error is raised for the doubly-specified
step. -/
theorem both_action_and_prompt_takes_action (afd : StepDo → Command)
    (wf : List Step) (st : WState) (state : AState) (act p : String)
    (hlt : st.workflow_step < wf.length)
    (ha : (wf.get ⟨st.workflow_step, hlt⟩).sdo.action = some act)
    (hp : (wf.get ⟨st.workflow_step, hlt⟩).sdo.prompt = some p)
    (hvr : 0 < st.workflow_step →
      (update_previous_workflow_step wf st.workflow_step st.workflow_data state).1 = true) :
    (step_workflow afd wf st state).1
        = .command (afd (wf.get ⟨st.workflow_step, hlt⟩).sdo) ∧
    (step_workflow afd wf st state).1 ≠ .prompted p ∧
    (step_workflow afd wf st state).1 ≠ .stepDefError := by
  have h1 : (step_workflow afd wf st state).1
      = .command (afd (wf.get ⟨st.workflow_step, hlt⟩).sdo) := by
    rw [step_workflow_validated afd wf st state hlt hvr]
    show stepAction afd (wf.get ⟨st.workflow_step, hlt⟩) = _
    unfold stepAction
    rw [ha]
  refine ⟨h1, ?_, ?_⟩
  · rw [h1]
    simp
  · rw [h1]
    simp

/-- Witness for Claim C10 on a concrete step with both an action and a
prompt. -/
theorem both_action_and_prompt_takes_action_witness :
    (step_workflow demoAfd [demoBoth] ⟨0, []⟩ ⟨[]⟩).1
      = .command (demoAfd demoBoth.sdo) :=
  (both_action_and_prompt_takes_action demoAfd [demoBoth] ⟨0, []⟩ ⟨[]⟩
    "run" "say done" (by decide) (by decide) (by decide)
    (fun h => absurd h (by decide))).1

end Micro
